import Mathlib

/-!
# Verification of SAM-Batcher's backend core

Shallow embedding of the parts of the repository that the verified claims
concern, together with the theorems settling those claims:

* `app/backend/mask_utils.py` — the run-length codec for binary masks
  (`binary_mask_to_rle`, `rle_to_binary_mask`);
* `app/backend/db_manager.py` — the SQLite persistence layer (image pool
  upsert, per-source exemptions, pool listing, mask-layer updates);
* `app/backend/project_logic.py` — the status state machine
  (`sync_image_status_with_layers` and the operations that invoke it);
* `app/backend/export_logic.py` — the filtered COCO export pipeline
  (`prepare_export_data`: layer filtering and category assignment).

Python lists of lists become Lean `List (List Nat)`; SQLite tables become
Lean lists of row structures; timestamps are abstracted as `Nat` values
passed in by the caller (`datetime.utcnow()` results only flow into
bookkeeping columns).
-/

namespace SamBatcher

/-! ## RLE codec (`app/backend/mask_utils.py`)

The codec works on 2D binary masks given as lists of rows.  A pixel value is
any integer; the encoder coerces it with `1 if val else 0` (truthiness),
which for naturals is `if val ≠ 0 then 1 else 0`.
-/

/-- The simple RLE object `{"counts": [...], "size": [height, width]}`. -/
structure RLE where
  counts : List Nat
  height : Nat
  width : Nat
deriving DecidableEq, Repr

/-- Python's `1 if val else 0` coercion of a pixel. -/
def coercePixel (val : Nat) : Nat := if val ≠ 0 then 1 else 0

/-- The encoder's scan loop from `binary_mask_to_rle` (lines 12-23 of
`mask_utils.py`): state `(counts, last_val, run_len)` starts at
`([], 0, 0)`; each pixel either extends the current run or flushes it and
starts a new run of length 1; after the loop the final run is appended. -/
def rleScan : List Nat → List Nat → Nat → Nat → List Nat
  | [], counts, _, run_len => counts ++ [run_len]
  | x :: xs, counts, last_val, run_len =>
      if coercePixel x = last_val then rleScan xs counts last_val (run_len + 1)
      else rleScan xs (counts ++ [run_len]) (coercePixel x) 1

/-- `binary_mask_to_rle` from `mask_utils.py`: empty masks (no rows, or an
empty first row) encode to `{"counts": [], "size": [0, 0]}`; otherwise the
pixels are scanned in row-major order (`mask.join` matches the nested
`for row in mask: for val in row` loop). -/
def binary_mask_to_rle (mask : List (List Nat)) : RLE :=
  if mask.headD [] = [] then ⟨[], 0, 0⟩
  else ⟨rleScan mask.flatten [] 0 0, mask.length, (mask.headD []).length⟩

/-- Decoder helper: expand the counts into a flat pixel list, starting from
value `val` and flipping with `val = 1 - val` after each run
(`rle_to_binary_mask` lines 31-35). -/
def rleExpandFrom : Nat → List Nat → List Nat
  | _, [] => []
  | val, c :: rest => List.replicate c val ++ rleExpandFrom (1 - val) rest

/-- The decoder's flat expansion starts from background value 0. -/
def rleExpand (counts : List Nat) : List Nat := rleExpandFrom 0 counts

/-- `rle_to_binary_mask` from `mask_utils.py`: expand the counts, pad with
background to `height * width` (Python's `[0] * n` is empty for negative
`n`, matching `Nat` subtraction), then slice into `height` rows of `width`
(`flat[i * width:(i + 1) * width]` is `(flat.drop (i * width)).take width`). -/
def rle_to_binary_mask (rle : RLE) : List (List Nat) :=
  let flat := rleExpand rle.counts
  let flat2 := flat ++ List.replicate (rle.height * rle.width - flat.length) 0
  (List.range rle.height).map fun i => (flat2.drop (i * rle.width)).take rle.width

/-- The value a run at position `n` of the counts list carries, when
expansion starts from `v`: runs alternate, so it is `v` for even `n`. -/
def altVal (v n : Nat) : Nat := if n % 2 = 0 then v else 1 - v

theorem altVal_succ (v n : Nat) (hv : v ≤ 1) :
    altVal v (n + 1) = 1 - altVal v n := by
  rcases Nat.le_one_iff_eq_zero_or_eq_one.mp hv with h | h <;>
    subst h <;> unfold altVal <;>
    rcases Nat.even_or_odd n with he | ho
  · simp [Nat.even_iff.mp he, Nat.succ_mod_two_eq_one_iff.mpr (Nat.even_iff.mp he)]
  · simp [Nat.odd_iff.mp ho, Nat.succ_mod_two_eq_zero_iff.mpr (Nat.odd_iff.mp ho)]
  · simp [Nat.even_iff.mp he, Nat.succ_mod_two_eq_one_iff.mpr (Nat.even_iff.mp he)]
  · simp [Nat.odd_iff.mp ho, Nat.succ_mod_two_eq_zero_iff.mpr (Nat.odd_iff.mp ho)]

theorem altVal_le_one (v n : Nat) (hv : v ≤ 1) : altVal v n ≤ 1 := by
  unfold altVal; split <;> omega

theorem altVal_one_sub (v n : Nat) (hv : v ≤ 1) :
    altVal (1 - v) n = altVal v (n + 1) := by
  rw [altVal_succ v n hv]
  unfold altVal
  split <;> omega

theorem rleExpandFrom_append (v : Nat) (cs : List Nat) (x : Nat) (hv : v ≤ 1) :
    rleExpandFrom v (cs ++ [x]) =
      rleExpandFrom v cs ++ List.replicate x (altVal v cs.length) := by
  induction cs generalizing v with
  | nil => simp [rleExpandFrom, altVal]
  | cons c cs ih =>
      simp only [List.cons_append, rleExpandFrom, List.length_cons,
        ← altVal_one_sub v cs.length hv]
      rw [show cs.append [x] = cs ++ [x] from rfl, ih (1 - v) (by omega),
        List.append_assoc]

theorem rleExpand_append (cs : List Nat) (x : Nat) :
    rleExpand (cs ++ [x]) = rleExpand cs ++ List.replicate x (altVal 0 cs.length) :=
  rleExpandFrom_append 0 cs x (by omega)

/-- Core scan/expand inverse: expanding the counts produced by the scan
replays the coerced pixel stream, for any intermediate scan state whose
`last_val` matches the parity of the flushed runs. -/
theorem rleExpand_rleScan (xs : List Nat) :
    ∀ (counts : List Nat) (lv r : Nat), lv ≤ 1 → lv = altVal 0 counts.length →
      rleExpand (rleScan xs counts lv r) =
        rleExpand (counts ++ [r]) ++ xs.map coercePixel := by
  induction xs with
  | nil => intro counts lv r _ _; simp [rleScan]
  | cons x xs ih =>
      intro counts lv r hlv hpar
      by_cases hv : coercePixel x = lv
      · rw [rleScan, if_pos hv, ih counts lv (r + 1) hlv hpar,
          rleExpand_append, rleExpand_append]
        have : List.replicate (r + 1) (altVal 0 counts.length) =
            List.replicate r (altVal 0 counts.length) ++ [altVal 0 counts.length] := by
          simp [List.replicate_succ']
        rw [this, List.map_cons, ← hpar, hv]
        simp
      · rw [rleScan, if_neg hv]
        have hvx : coercePixel x ≤ 1 := by unfold coercePixel; split <;> omega
        have hpar' : coercePixel x = altVal 0 (counts ++ [r]).length := by
          rw [List.length_append, List.length_singleton, altVal_succ 0 counts.length (by omega),
            ← hpar]
          have h0 : altVal 0 counts.length ≤ 1 := altVal_le_one 0 counts.length (by omega)
          omega
        rw [ih (counts ++ [r]) (coercePixel x) 1 hvx hpar', rleExpand_append,
          ← hpar']
        simp [List.map_cons]

/-- The scan's counts always sum to the number of pixels consumed plus the
carried-in totals: every pixel bumps exactly one run length. -/
theorem rleScan_sum (xs : List Nat) :
    ∀ (counts : List Nat) (lv r : Nat),
      (rleScan xs counts lv r).sum = counts.sum + r + xs.length := by
  induction xs with
  | nil => intro counts lv r; simp [rleScan]
  | cons x xs ih =>
      intro counts lv r
      by_cases hv : coercePixel x = lv
      · rw [rleScan, if_pos hv, ih]; simp; omega
      · rw [rleScan, if_neg hv, ih]; simp; omega

/-- Expanding counts yields exactly `counts.sum` pixels. -/
theorem rleExpandFrom_length (v : Nat) (cs : List Nat) :
    (rleExpandFrom v cs).length = cs.sum := by
  induction cs generalizing v with
  | nil => simp [rleExpandFrom]
  | cons c cs ih => simp [rleExpandFrom, ih]

theorem rleExpand_length (cs : List Nat) : (rleExpand cs).length = cs.sum :=
  rleExpandFrom_length 0 cs

/-- Re-slicing the row-major flattening of a rectangular grid into rows of
width `w` recovers the grid. -/
theorem chunks_flatten (m : List (List Nat)) (w : Nat)
    (hw : ∀ row ∈ m, row.length = w) :
    (List.range m.length).map (fun i => ((m.flatten).drop (i * w)).take w) = m := by
  induction m with
  | nil => simp
  | cons row rest ih =>
      have hrow : row.length = w := hw row (by simp)
      have htail : ∀ r ∈ rest, r.length = w := fun r hr => hw r (by simp [hr])
      simp only [List.length_cons, List.range_succ_eq_map, List.map_cons,
        List.map_map, List.flatten_cons]
      congr 1
      · rw [Nat.zero_mul, List.drop_zero, List.take_left' hrow]
      · refine Eq.trans ?_ (ih htail)
        apply List.map_congr_left
        intro i _
        have hdrop : (row ++ rest.flatten).drop (Nat.succ i * w) =
            rest.flatten.drop (i * w) := by
          rw [Nat.succ_mul, Nat.add_comm (i * w) w, ← hrow]
          simp
        simp [hdrop]


/-- Flattening the decoder's row slices of a sufficiently long flat list
yields its first `h * w` elements. -/
theorem flatten_chunks (l : List Nat) (h w : Nat) (hl : h * w ≤ l.length) :
    ((List.range h).map fun i => (l.drop (i * w)).take w).flatten = l.take (h * w) := by
  induction h with
  | zero => simp
  | succ n ih =>
      have hle : n * w ≤ l.length := le_trans (by exact Nat.mul_le_mul_right w (by omega)) hl
      rw [show n + 1 = Nat.succ n from rfl, List.range_succ, List.map_append,
        List.flatten_append, ih hle]
      simp only [List.map_cons, List.map_nil, List.flatten_cons, List.flatten_nil,
        List.append_nil]
      rw [Nat.succ_mul, List.take_add]

/-- `C1` main part: the round trip `rle_to_binary_mask ∘ binary_mask_to_rle`
is the identity on rectangular binary grids whose rows are nonempty (or which
have no rows at all). -/
theorem rle_roundtrip (m : List (List Nat))
    (hrect : ∀ row ∈ m, row.length = (m.headD []).length)
    (hbin : ∀ row ∈ m, ∀ v ∈ row, v ≤ 1)
    (hne : m ≠ [] → m.headD [] ≠ []) :
    rle_to_binary_mask (binary_mask_to_rle m) = m ∧
      binary_mask_to_rle [] = ⟨[], 0, 0⟩ := by
  refine ⟨?_, rfl⟩
  rcases m with _ | ⟨row, rest⟩
  · rfl
  · have hhead : (row :: rest).headD [] = row := rfl
    have hrow : row ≠ [] := by
      have := hne (by simp)
      rwa [hhead] at this
    set m := row :: rest with hm
    have henc : binary_mask_to_rle m =
        ⟨rleScan m.flatten [] 0 0, m.length, row.length⟩ := by
      rw [binary_mask_to_rle, if_neg (by rw [hm, hhead]; exact hrow), hm, hhead]
    have hexp : rleExpand (rleScan m.flatten [] 0 0) = m.flatten := by
      rw [rleExpand_rleScan m.flatten [] 0 0 (by omega) (by simp [altVal])]
      have h0 : rleExpand ([] ++ [0]) = [] := by simp [rleExpand, rleExpandFrom]
      rw [h0, List.nil_append]
      have hall : ∀ v ∈ m.flatten, coercePixel v = v := by
        intro v hv
        rcases List.mem_flatten.mp hv with ⟨r, hr, hvr⟩
        have := hbin r hr v hvr
        unfold coercePixel
        split <;> omega
      conv_rhs => rw [← List.map_id m.flatten]
      exact List.map_congr_left hall
    have hlen : m.flatten.length = m.length * row.length := by
      rw [List.length_flatten]
      have hrep : m.map List.length = List.replicate m.length row.length := by
        rw [List.eq_replicate_iff]
        refine ⟨by simp, ?_⟩
        intro b hb
        rcases List.mem_map.mp hb with ⟨r, hr, hrb⟩
        rw [← hrb]
        rw [show (m.headD []) = row from rfl] at hrect
        exact hrect r hr
      rw [hrep, List.sum_replicate, smul_eq_mul]
    rw [henc, rle_to_binary_mask]
    simp only [hexp, hlen, Nat.sub_self, List.replicate_zero, List.append_nil]
    exact chunks_flatten m row.length
      (by rw [show (m.headD []) = row from rfl] at hrect; exact hrect)

/-- `C1` counterexample: the 1×0 grid `[[]]` is a rectangular binary grid,
but it encodes to size `[0, 0]` and decodes to the 0×0 grid `[]`, so the
round trip is not the identity on it. -/
theorem rle_roundtrip_counterexample :
    (∀ row ∈ [([] : List Nat)], row.length = 0) ∧
      (∀ row ∈ [([] : List Nat)], ∀ v ∈ row, v ≤ 1) ∧
      rle_to_binary_mask (binary_mask_to_rle [[]]) = [] ∧
      rle_to_binary_mask (binary_mask_to_rle [[]]) ≠ [[]] := by
  refine ⟨by simp, by simp, rfl, by decide⟩

/-- `C1` witness: the round trip restores a concrete 2×2 grid. -/
theorem rle_roundtrip_witness :
    rle_to_binary_mask (binary_mask_to_rle [[0, 1], [1, 1]]) = [[0, 1], [1, 1]] :=
  (rle_roundtrip [[0, 1], [1, 1]] (by decide) (by decide) (by decide)).1

/-- The flattening of a rectangular grid with `w`-pixel rows has
`height * w` pixels. -/
theorem flatten_length_rect (m : List (List Nat)) (w : Nat)
    (hw : ∀ row ∈ m, row.length = w) :
    m.flatten.length = m.length * w := by
  rw [List.length_flatten]
  have hrep : m.map List.length = List.replicate m.length w := by
    rw [List.eq_replicate_iff]
    refine ⟨by simp, ?_⟩
    intro b hb
    rcases List.mem_map.mp hb with ⟨r, hr, hrb⟩
    rw [← hrb]
    exact hw r hr
  rw [hrep, List.sum_replicate, smul_eq_mul]

/-- `C7`: for any declared size `[h, w]` and any counts, the decoder returns
exactly `h` rows of exactly `w` pixels — padding with background when the
counts fall short of `h * w`, truncating the expansion when they exceed it —
and every pixel past the expanded counts is background `0`. -/
theorem rle_decode_shape (counts : List Nat) (h w : Nat) :
    (rle_to_binary_mask ⟨counts, h, w⟩).length = h ∧
      (∀ row ∈ rle_to_binary_mask ⟨counts, h, w⟩, row.length = w) ∧
      (∀ x ∈ (rle_to_binary_mask ⟨counts, h, w⟩).flatten.drop counts.sum, x = 0) := by
  have hflatlen : (rleExpand counts).length = counts.sum := rleExpand_length counts
  set flat := rleExpand counts with hflat
  set flat2 := flat ++ List.replicate (h * w - flat.length) 0 with hflat2
  have hunfold : rle_to_binary_mask ⟨counts, h, w⟩ =
      (List.range h).map fun i => (flat2.drop (i * w)).take w := rfl
  have hlen2 : h * w ≤ flat2.length := by
    rw [hflat2, List.length_append, List.length_replicate]
    omega
  refine ⟨by simp [hunfold], ?_, ?_⟩
  · intro row hrow
    rw [hunfold] at hrow
    rcases List.mem_map.mp hrow with ⟨i, hi, hieq⟩
    have hilt : i < h := List.mem_range.mp hi
    have : (i + 1) * w ≤ h * w := Nat.mul_le_mul_right w (by omega)
    rw [Nat.succ_mul] at this
    rw [← hieq]
    simp only [List.length_take, List.length_drop]
    omega
  · intro x hx
    rw [hunfold, flatten_chunks flat2 h w hlen2] at hx
    rw [List.drop_take] at hx
    have hdrop : flat2.drop counts.sum = List.replicate (h * w - flat.length) 0 := by
      rw [hflat2, ← hflatlen, List.drop_left]
    rw [hdrop] at hx
    exact List.eq_of_mem_replicate (List.take_subset _ _ hx)

/-- `C7` witness: decoding counts `[1, 2]` (sum 3) at size 2×2 yields two
rows and pads the final pixel with background. -/
theorem rle_decode_shape_witness :
    (rle_to_binary_mask ⟨[1, 2], 2, 2⟩).length = 2 ∧
      ∀ x ∈ (rle_to_binary_mask ⟨[1, 2], 2, 2⟩).flatten.drop ([1, 2] : List Nat).sum,
        x = 0 :=
  ⟨(rle_decode_shape [1, 2] 2 2).1, (rle_decode_shape [1, 2] 2 2).2.2⟩

/-- All runs flushed after the first one are nonempty: the scan only flushes
a run when a pixel flips the value, and by then the run has length ≥ 1. -/
theorem rleScan_tail_pos (xs : List Nat) :
    ∀ (counts : List Nat) (lv r : Nat),
      (∀ x ∈ counts.tail, 0 < x) → (counts ≠ [] → 1 ≤ r) →
      ∀ x ∈ (rleScan xs counts lv r).tail, 0 < x := by
  induction xs with
  | nil =>
      intro counts lv r htail hr x hx
      rw [rleScan] at hx
      cases counts with
      | nil => simp at hx
      | cons c cs =>
          rw [List.cons_append, List.tail_cons] at hx
          rcases List.mem_append.mp hx with hmem | hmem
          · exact htail x hmem
          · rw [List.mem_singleton.mp hmem]
            exact hr (by simp)
  | cons y ys ih =>
      intro counts lv r htail hr x hx
      rw [rleScan] at hx
      split at hx
      · exact ih counts lv (r + 1) htail (fun _ => by omega) x hx
      · refine ih (counts ++ [r]) (coercePixel y) 1 ?_ (fun _ => le_refl 1) x hx
        intro z hz
        cases counts with
        | nil => simp at hz
        | cons c cs =>
            rw [List.cons_append, List.tail_cons] at hz
            rcases List.mem_append.mp hz with hmem | hmem
            · exact htail z hmem
            · rw [List.mem_singleton.mp hmem]
              exact hr (by simp)

theorem head?_append_left {α : Type} (l₁ l₂ : List α) (h : l₁ ≠ []) :
    (l₁ ++ l₂).head? = l₁.head? := by
  cases l₁ with
  | nil => exact absurd rfl h
  | cons a t => rfl

/-- Once a run has been flushed, the first count never changes. -/
theorem rleScan_head_of_ne (xs : List Nat) :
    ∀ (counts : List Nat) (lv r : Nat), counts ≠ [] →
      (rleScan xs counts lv r).head? = counts.head? := by
  induction xs with
  | nil =>
      intro counts lv r hc
      rw [rleScan, head?_append_left _ _ hc]
  | cons y ys ih =>
      intro counts lv r hc
      rw [rleScan]
      split
      · exact ih counts lv (r + 1) hc
      · rw [ih (counts ++ [r]) (coercePixel y) 1 (by simp), head?_append_left _ _ hc]

/-- If the scan state carries a positive pending run (or a positive first
count), the final first count is positive. -/
theorem rleScan_head_pos (xs : List Nat) :
    ∀ (counts : List Nat) (lv r : Nat),
      (counts = [] ∧ 1 ≤ r ∨ ∃ k, counts.head? = some k ∧ 1 ≤ k) →
      ∃ k, (rleScan xs counts lv r).head? = some k ∧ 1 ≤ k := by
  induction xs with
  | nil =>
      intro counts lv r hinv
      rw [rleScan]
      rcases hinv with ⟨hc, hr⟩ | ⟨k, hk, hk1⟩
      · exact ⟨r, by rw [hc]; rfl, hr⟩
      · refine ⟨k, ?_, hk1⟩
        rw [head?_append_left _ _ (by intro h; rw [h] at hk; simp at hk), hk]
  | cons y ys ih =>
      intro counts lv r hinv
      rw [rleScan]
      split
      · refine ih counts lv (r + 1) ?_
        rcases hinv with ⟨hc, _⟩ | hk
        · exact Or.inl ⟨hc, by omega⟩
        · exact Or.inr hk
      · refine ih (counts ++ [r]) (coercePixel y) 1 (Or.inr ?_)
        rcases hinv with ⟨hc, hr⟩ | ⟨k, hk, hk1⟩
        · exact ⟨r, by rw [hc]; rfl, hr⟩
        · refine ⟨k, ?_, hk1⟩
          rw [head?_append_left _ _ (by intro h; rw [h] at hk; simp at hk), hk]

/-- Expanding the counts produced by scanning a binary grid replays the
grid's row-major pixel stream exactly. -/
theorem rleExpand_scan_flatten (m : List (List Nat))
    (hbin : ∀ row ∈ m, ∀ v ∈ row, v ≤ 1) :
    rleExpand (rleScan m.flatten [] 0 0) = m.flatten := by
  rw [rleExpand_rleScan m.flatten [] 0 0 (by omega) (by simp [altVal])]
  have h0 : rleExpand ([] ++ [0]) = [] := by simp [rleExpand, rleExpandFrom]
  rw [h0, List.nil_append]
  have hall : ∀ v ∈ m.flatten, coercePixel v = v := by
    intro v hv
    rcases List.mem_flatten.mp hv with ⟨r, hr, hvr⟩
    have := hbin r hr v hvr
    unfold coercePixel
    split <;> omega
  conv_rhs => rw [← List.map_id m.flatten]
  exact List.map_congr_left hall

/-- `C10`: on a nonempty rectangular binary grid, the encoder's counts sum
to `height * width`; all counts after the first are positive; the first
count is `0` exactly when the first row-major pixel is foreground; and the
counts expand (alternating, starting from background) to exactly the
row-major pixel stream. -/
theorem rle_encode_counts (m : List (List Nat)) (w : Nat)
    (hm : m ≠ []) (hw : 0 < w)
    (hrect : ∀ row ∈ m, row.length = w)
    (hbin : ∀ row ∈ m, ∀ v ∈ row, v ≤ 1) :
    (binary_mask_to_rle m).counts.sum = m.length * w ∧
      (∀ x ∈ (binary_mask_to_rle m).counts.tail, 0 < x) ∧
      ((binary_mask_to_rle m).counts.head? = some 0 ↔ m.flatten.head? = some 1) ∧
      rleExpand (binary_mask_to_rle m).counts = m.flatten := by
  rcases m with _ | ⟨row, rest⟩
  · exact absurd rfl hm
  · have hrow : row.length = w := hrect row (by simp)
    have hrowne : row ≠ [] := by
      intro h
      rw [h] at hrow
      simp at hrow
      omega
    set m := row :: rest with hm'
    have henc : binary_mask_to_rle m = ⟨rleScan m.flatten [] 0 0, m.length, row.length⟩ := by
      rw [binary_mask_to_rle, if_neg (by exact hrowne), hm']
      rfl
    rw [henc]
    refine ⟨?_, ?_, ?_, rleExpand_scan_flatten m hbin⟩
    · rw [rleScan_sum, flatten_length_rect m w hrect]
      simp
    · exact rleScan_tail_pos m.flatten [] 0 0 (by simp) (by simp)
    · rcases hp : m.flatten with _ | ⟨p, ps⟩
      · exfalso
        have hfl : m.flatten.length = m.length * w := flatten_length_rect m w hrect
        rw [hp] at hfl
        simp only [List.length_nil] at hfl
        have hml : m.length = rest.length + 1 := rfl
        rw [hml, Nat.succ_mul] at hfl
        omega
      · have hple : p ≤ 1 := by
          have hmem : p ∈ m.flatten := by rw [hp]; simp
          rcases List.mem_flatten.mp hmem with ⟨r, hr, hvr⟩
          exact hbin r hr p hvr
        rcases Nat.le_one_iff_eq_zero_or_eq_one.mp hple with h1 | h1
        · subst h1
          rw [rleScan, if_pos (by unfold coercePixel; simp)]
          rcases rleScan_head_pos ps [] 0 1 (Or.inl ⟨rfl, le_refl 1⟩) with ⟨k, hk, hk1⟩
          rw [hk]
          constructor
          · intro h
            exact absurd (Option.some.inj h) (by omega)
          · intro h
            exact absurd (Option.some.inj h) (by omega)
        · subst h1
          rw [rleScan, if_neg (by unfold coercePixel; simp)]
          rw [rleScan_head_of_ne ps ([] ++ [0]) (coercePixel 1) 1 (by simp)]
          simp

/-- `C10` witness: encoding the grid `[[1, 0], [0, 0]]` gives counts
`[0, 1, 3]` — sum 4, positive after the first, first count `0` because the
first pixel is foreground. -/
theorem rle_encode_counts_witness :
    (binary_mask_to_rle [[1, 0], [0, 0]]).counts.sum = 2 * 2 ∧
      ∀ x ∈ (binary_mask_to_rle [[1, 0], [0, 0]]).counts.tail, 0 < x :=
  ⟨(rle_encode_counts [[1, 0], [0, 0]] 2 (by decide) (by decide) (by decide)
      (by decide)).1,
    (rle_encode_counts [[1, 0], [0, 0]] 2 (by decide) (by decide) (by decide)
      (by decide)).2.1⟩

/-! ## Status state machine (`app/backend/project_logic.py` /
`app/backend/db_manager.py`)

For one image we track exactly the data the state machine reads: the
`status` column of its `Images` row and the number of `Mask_Layers` rows
referencing it (`count_mask_layers_for_image`).  `save_mask_layer` inserts
one row; `delete_mask_layer` deletes at most one row (by primary key), so a
delete aimed at a missing layer leaves the count unchanged, which `Nat`
subtraction models exactly.
-/

structure ImgState where
  status : String
  layers : Nat
deriving DecidableEq, Repr

/-- `sync_image_status_with_layers` (`project_logic.py` lines 445-473):
`skip` returns unchanged; zero layers force `unprocessed`; with layers
present only `unprocessed` is auto-advanced to `in_progress`. -/
def sync_image_status_with_layers (st : ImgState) : ImgState :=
  if st.status = "skip" then st
  else if st.layers = 0 then
    if st.status ≠ "unprocessed" then { st with status := "unprocessed" } else st
  else
    if st.status = "unprocessed" then { st with status := "in_progress" } else st

/-- `db_manager.update_image_status`: the status column is written verbatim. -/
def update_image_status (st : ImgState) (s : String) : ImgState :=
  { st with status := s }

/-- `db_manager.save_mask_layer`: inserts one `Mask_Layers` row. -/
def save_mask_layer (st : ImgState) : ImgState :=
  { st with layers := st.layers + 1 }

/-- `db_manager.delete_mask_layer`: deletes the row with the given primary
key, if present. -/
def delete_mask_layer (st : ImgState) : ImgState :=
  { st with layers := st.layers - 1 }

/-- `project_logic.delete_mask_layer_and_update_status` (lines 788-794):
delete, then re-synchronize the image status. -/
def delete_mask_layer_and_update_status (st : ImgState) : ImgState :=
  sync_image_status_with_layers (delete_mask_layer st)

/-- The operations on one image that end in a status synchronization:
saving a layer (`commit_final_masks` / `process_automask_request` both call
`sync_image_status_with_layers` after `save_mask_layer`), deleting a layer
(`delete_mask_layer_and_update_status`), and an explicit status write
through `update_image_state`, which also ends with the synchronization. -/
inductive PoolOp where
  | saveLayer
  | deleteLayer
  | setStatus (s : String)
deriving DecidableEq, Repr

def applyOp (st : ImgState) : PoolOp → ImgState
  | .saveLayer => sync_image_status_with_layers (save_mask_layer st)
  | .deleteLayer => delete_mask_layer_and_update_status st
  | .setStatus s => sync_image_status_with_layers (update_image_status st s)

def applyOps (st : ImgState) (ops : List PoolOp) : ImgState :=
  ops.foldl applyOp st

/-- A freshly pooled image: `add_image_to_pool` defaults `status` to
`"unprocessed"` and it has no mask layers. -/
def freshImage : ImgState := ⟨"unprocessed", 0⟩

/-- The invariant maintained by every synchronized operation that never
writes `skip`: status is `unprocessed` exactly when no layers exist, and
the status is not `skip`. -/
def StatusInv (st : ImgState) : Prop :=
  (st.status = "unprocessed" ↔ st.layers = 0) ∧ st.status ≠ "skip"

theorem sync_inv (st : ImgState) (h : st.status ≠ "skip") :
    StatusInv (sync_image_status_with_layers st) := by
  unfold sync_image_status_with_layers StatusInv
  rw [if_neg h]
  by_cases h0 : st.layers = 0
  · rw [if_pos h0]
    by_cases hu : st.status = "unprocessed"
    · rw [if_neg (by simp [hu])]
      exact ⟨⟨fun _ => h0, fun _ => hu⟩, h⟩
    · rw [if_pos (by simp [hu])]
      exact ⟨⟨fun _ => h0, fun _ => rfl⟩, show "unprocessed" ≠ "skip" by decide⟩
  · rw [if_neg h0]
    by_cases hu : st.status = "unprocessed"
    · rw [if_pos hu]
      exact ⟨⟨fun hc => absurd (show "in_progress" = "unprocessed" from hc) (by decide),
        fun hc => absurd hc h0⟩, show "in_progress" ≠ "skip" by decide⟩
    · rw [if_neg hu]
      exact ⟨⟨fun hc => absurd hc hu, fun hc => absurd hc h0⟩, h⟩

theorem sync_skip (st : ImgState) (h : st.status = "skip") :
    sync_image_status_with_layers st = st := by
  unfold sync_image_status_with_layers
  rw [if_pos h]

theorem applyOp_inv (st : ImgState) (op : PoolOp) (hinv : StatusInv st)
    (hop : ∀ s, op = PoolOp.setStatus s → s ≠ "skip") :
    StatusInv (applyOp st op) := by
  cases op with
  | saveLayer => exact sync_inv _ hinv.2
  | deleteLayer => exact sync_inv _ hinv.2
  | setStatus s => exact sync_inv _ (hop s rfl)

theorem applyOps_inv (ops : List PoolOp) :
    ∀ st : ImgState, StatusInv st →
      (∀ s, PoolOp.setStatus s ∈ ops → s ≠ "skip") →
      StatusInv (applyOps st ops) := by
  induction ops with
  | nil => intro st hinv _; exact hinv
  | cons op ops ih =>
      intro st hinv hns
      rw [applyOps, List.foldl_cons]
      exact ih (applyOp st op)
        (applyOp_inv st op hinv (fun s hs => hns s (by rw [← hs]; simp)))
        (fun s hs => hns s (by simp [hs]))

/-- `C3`: starting from a fresh image, after any sequence of synchronized
layer saves, layer deletes and explicit status writes none of which sets
`skip`, the status is `unprocessed` exactly when the image has no layers;
moreover deleting the last remaining layer of any image whose status is not
`skip` reverts the status to `unprocessed`. -/
theorem status_unprocessed_iff (ops : List PoolOp)
    (hns : ∀ s, PoolOp.setStatus s ∈ ops → s ≠ "skip") :
    ((applyOps freshImage ops).status = "unprocessed" ↔
        (applyOps freshImage ops).layers = 0) ∧
      ∀ st : ImgState, st.status ≠ "skip" → st.layers = 1 →
        (delete_mask_layer_and_update_status st).status = "unprocessed" := by
  constructor
  · exact (applyOps_inv ops freshImage ⟨⟨fun _ => rfl, fun _ => rfl⟩, by decide⟩ hns).1
  · intro st hsk h1
    unfold delete_mask_layer_and_update_status delete_mask_layer
      sync_image_status_with_layers
    rw [if_neg (by exact hsk), if_pos (by simp [h1])]
    by_cases hu : st.status = "unprocessed"
    · rw [if_neg (by simp [hu])]
      exact hu
    · rw [if_pos (by simp [hu])]

/-- `C3` witness: save a layer, explicitly approve, then delete the layer —
the status returns to `unprocessed` since no layers remain. -/
theorem status_unprocessed_iff_witness :
    (applyOps freshImage
        [PoolOp.saveLayer, PoolOp.setStatus "approved", PoolOp.deleteLayer]).status =
      "unprocessed" := by
  have h := status_unprocessed_iff
    [PoolOp.saveLayer, PoolOp.setStatus "approved", PoolOp.deleteLayer]
    (by intro s hs; simp at hs; subst hs; decide)
  exact h.1.mpr (by decide)

/-- `C4`: `skip` is sticky under layer operations — from any state with
status `skip`, any sequence of synchronized layer saves and deletes leaves
the status `skip`; only the explicit `update_image_status` write moves the
status (and it writes its argument verbatim). -/
theorem skip_sticky (ops : List PoolOp)
    (hops : ∀ op ∈ ops, op = PoolOp.saveLayer ∨ op = PoolOp.deleteLayer) :
    ∀ st : ImgState, st.status = "skip" →
      (applyOps st ops).status = "skip" ∧
        ∀ s, (update_image_status st s).status = s := by
  induction ops with
  | nil => intro st hskip; exact ⟨hskip, fun _ => rfl⟩
  | cons op ops ih =>
      intro st hskip
      refine ⟨?_, fun _ => rfl⟩
      rw [applyOps, List.foldl_cons]
      have hstep : (applyOp st op).status = "skip" := by
        rcases hops op (by simp) with h | h <;> subst h
        · rw [applyOp, sync_skip _ (by exact hskip)]
          exact hskip
        · rw [applyOp, delete_mask_layer_and_update_status,
            sync_skip _ (by exact hskip)]
          exact hskip
      exact (ih (fun o ho => hops o (by simp [ho])) (applyOp st op) hstep).1

/-- `C4` witness: from `skip` with no layers, saving then deleting a layer
leaves the status `skip`. -/
theorem skip_sticky_witness :
    (applyOps ⟨"skip", 0⟩ [PoolOp.saveLayer, PoolOp.deleteLayer]).status = "skip" :=
  (skip_sticky [PoolOp.saveLayer, PoolOp.deleteLayer]
    (by intro op hop; simpa using hop) ⟨"skip", 0⟩ rfl).1

/-! ## Image pool (`app/backend/db_manager.py`, `project_logic.py`)

The `Images` table is a list of rows keyed by `image_hash` (its primary
key), and `Source_Image_Exemptions` a list of `(source_id, image_hash)`
pairs (its composite primary key).  Content hashing is modelled by giving
each uploaded file its hash directly: identical bytes have identical
hashes.
-/

structure ImageRow where
  image_hash : String
  original_filename : Option String
  source_id_ref : Option String
  path_in_source : String
  width : Nat
  height : Nat
  status : String
  added_to_pool_at : Nat
deriving DecidableEq, Repr

/-- `db_manager.add_image_to_pool` (lines 407-448): an
`INSERT ... ON CONFLICT(image_hash) DO UPDATE` upsert.  On conflict the
existing row is updated with
`COALESCE(excluded.original_filename, Images.original_filename)` and
`COALESCE(excluded.source_id_ref, Images.source_id_ref)` (take the new
value unless it is NULL).  The function returns `cursor.rowcount > 0`; the
`DO UPDATE` branch also modifies exactly one row, so `sqlite3_changes()`
— and hence `cursor.rowcount` — is `1` on *both* paths and the returned
flag is always `true`, including for an already-present hash. -/
def add_image_to_pool (images : List ImageRow) (image_hash : String)
    (original_filename source_id_ref : Option String) (path_in_source : String)
    (width height : Nat) (status : String) (now : Nat) : List ImageRow × Bool :=
  if images.any (fun r => r.image_hash == image_hash) then
    (images.map (fun r =>
        if r.image_hash == image_hash then
          { r with
            original_filename := original_filename.orElse (fun _ => r.original_filename),
            source_id_ref := source_id_ref.orElse (fun _ => r.source_id_ref) }
        else r),
      true)
  else
    (images ++ [⟨image_hash, original_filename, source_id_ref, path_in_source,
        width, height, status, now⟩],
      true)

/-- One uploaded file, identified by the content hash of its bytes
(`calculate_file_hash`) plus its metadata. -/
structure UploadFile where
  bytesHash : String
  filename : String
  width : Nat
  height : Nat
deriving DecidableEq, Repr

structure UploadCounts where
  images_added : Nat
  images_skipped_duplicates : Nat
deriving DecidableEq, Repr

/-- The counting loop of `project_logic.add_image_source_upload`
(lines 325-351): each file is hashed and handed to `add_image_to_pool`
(the saved sharded path is derived from the hash; we pass the hash itself);
a `true` return increments `images_added`, a `false` return increments
`images_skipped_duplicates`. -/
def add_image_source_upload (images : List ImageRow) (source_id : String)
    (files : List UploadFile) (now : Nat) : List ImageRow × UploadCounts :=
  files.foldl
    (fun acc f =>
      let res := add_image_to_pool acc.1 f.bytesHash (some f.filename)
        (some source_id) f.bytesHash f.width f.height "unprocessed" now
      if res.2 then
        (res.1, ⟨acc.2.images_added + 1, acc.2.images_skipped_duplicates⟩)
      else
        (res.1, ⟨acc.2.images_added, acc.2.images_skipped_duplicates + 1⟩))
    (images, ⟨0, 0⟩)

/-- `C2` failing-input evaluation: uploading the same bytes (hash `"h1"`)
twice creates only one `Images` row — but the second `add_image_to_pool`
call also returns `true` (the upsert's `DO UPDATE` makes
`cursor.rowcount = 1`), so the upload reports `images_added = 2` and
`images_skipped_duplicates = 0` instead of flagging the duplicate. -/
theorem add_image_duplicate_reported_added :
    ((add_image_source_upload [] "upload_1"
        [⟨"h1", "a.jpg", 800, 600⟩, ⟨"h1", "a.jpg", 800, 600⟩] 0).1.map
        (fun r => r.image_hash) = ["h1"]) ∧
      (add_image_source_upload [] "upload_1"
          [⟨"h1", "a.jpg", 800, 600⟩, ⟨"h1", "a.jpg", 800, 600⟩] 0).2 =
        ⟨2, 0⟩ ∧
      (add_image_to_pool
          (add_image_to_pool [] "h1" (some "a.jpg") (some "upload_1") "h1"
            800 600 "unprocessed" 0).1
          "h1" (some "a.jpg") (some "upload_1") "h1" 800 600 "unprocessed" 0).2 =
        true := by
  decide

/-! ### Per-source exemptions and pool listing -/

structure Pagination where
  total : Nat
  page : Nat
  per_page : Nat
  total_pages : Nat
deriving DecidableEq, Repr

structure PoolDB where
  images : List ImageRow
  exemptions : List (String × String)
deriving DecidableEq, Repr

/-- `db_manager.set_image_exemption` (lines 366-383): `INSERT OR IGNORE`
into `Source_Image_Exemptions` when exempting, `DELETE` of the pair when
clearing; the `Images` table is never touched. -/
def set_image_exemption (db : PoolDB) (source_id image_hash : String)
    (exempt : Bool) : PoolDB :=
  if exempt then
    if db.exemptions.any (fun e => e.1 == source_id && e.2 == image_hash) then db
    else { db with exemptions := db.exemptions ++ [(source_id, image_hash)] }
  else
    { db with exemptions :=
        db.exemptions.filter (fun e => !(e.1 == source_id && e.2 == image_hash)) }

/-- Rows are ordered by `added_to_pool_at DESC`. -/
def byAddedDesc (a b : ImageRow) : Prop := b.added_to_pool_at ≤ a.added_to_pool_at

instance : DecidableRel byAddedDesc := fun _ _ => Nat.decLe _ _

/-- `db_manager.get_images_from_pool` (lines 460-501): `Images LEFT JOIN
Source_Image_Exemptions ON i.image_hash = e.image_hash WHERE e.image_hash
IS NULL` keeps exactly the images having *no* exemption row for *any*
source; an optional truthy status filter is conjoined; the result is
ordered by recency and paginated with `LIMIT per_page OFFSET
(page - 1) * per_page`. -/
def get_images_from_pool (db : PoolDB) (page : Nat) (per_page : Nat)
    (status_filter : Option String) : List ImageRow × Pagination :=
  let base := db.images.filter (fun i =>
    !(db.exemptions.any (fun e => e.2 == i.image_hash)) &&
      (match status_filter with
       | none => true
       | some s => if s = "" then true else i.status == s))
  let total := base.length
  let sorted := List.insertionSort byAddedDesc base
  let data := (sorted.drop ((page - 1) * per_page)).take per_page
  (data, ⟨total, page, per_page,
    if 0 < per_page then (total + per_page - 1) / per_page else 0⟩)

/-- `db_manager.get_images_for_source` (lines 346-363): the images whose
`source_id_ref` is this source, each flagged `exempted` when
`Source_Image_Exemptions` holds the pair for *this* source, ordered by
recency. -/
def get_images_for_source (db : PoolDB) (source_id : String) :
    List (ImageRow × Bool) :=
  let rows := db.images.filter (fun i => i.source_id_ref == some source_id)
  let sorted := List.insertionSort byAddedDesc rows
  sorted.map (fun i =>
    (i, db.exemptions.any (fun e => e.1 == source_id && e.2 == i.image_hash)))

/-- `C8` counterexample: after exempting image `h1` for its source `s1`,
the `Images` table still holds the row, but `get_images_from_pool` no
longer returns it — its `LEFT JOIN ... WHERE e.image_hash IS NULL` filters
out every image possessing an exemption row for any source, contradicting
"the pool listing still returns it". -/
theorem exemption_pool_counterexample :
    (set_image_exemption
        ⟨[⟨"h1", some "a.jpg", some "s1", "p", 800, 600, "unprocessed", 5⟩], []⟩
        "s1" "h1" true).images =
      [⟨"h1", some "a.jpg", some "s1", "p", 800, 600, "unprocessed", 5⟩] ∧
    (get_images_from_pool
        (set_image_exemption
          ⟨[⟨"h1", some "a.jpg", some "s1", "p", 800, 600, "unprocessed", 5⟩], []⟩
          "s1" "h1" true) 1 50 none).1 = [] := by
  decide

/-- `C8` amended: exempting `(sid, h)` deletes no `Images` row and changes
no other source's listing; the per-source listing flags matching rows
exempt; but the pool listing from then on excludes the image entirely. -/
theorem exemption_amended (db : PoolDB) (sid h : String) :
    (set_image_exemption db sid h true).images = db.images ∧
      (∀ s2, s2 ≠ sid →
        get_images_for_source (set_image_exemption db sid h true) s2 =
          get_images_for_source db s2) ∧
      (∀ p ∈ get_images_for_source (set_image_exemption db sid h true) sid,
        p.1.image_hash = h → p.2 = true) ∧
      (∀ page per_page sf,
        ∀ i ∈ (get_images_from_pool (set_image_exemption db sid h true)
            page per_page sf).1,
          i.image_hash ≠ h) := by
  have hcases : (set_image_exemption db sid h true).images = db.images ∧
      ((set_image_exemption db sid h true).exemptions = db.exemptions ∧
          (sid, h) ∈ db.exemptions ∨
        (set_image_exemption db sid h true).exemptions =
          db.exemptions ++ [(sid, h)]) := by
    unfold set_image_exemption
    rw [if_pos rfl]
    by_cases hmem : (db.exemptions.any (fun e => e.1 == sid && e.2 == h)) = true
    · rw [if_pos hmem]
      refine ⟨rfl, Or.inl ⟨rfl, ?_⟩⟩
      rcases List.any_eq_true.mp hmem with ⟨e, he, hee⟩
      rcases Bool.and_eq_true_iff.mp hee with ⟨h1, h2⟩
      have : e = (sid, h) := Prod.ext (eq_of_beq h1) (eq_of_beq h2)
      rwa [this] at he
    · rw [if_neg hmem]
      exact ⟨rfl, Or.inr rfl⟩
  obtain ⟨himg, hex⟩ := hcases
  have hmemnew : (sid, h) ∈ (set_image_exemption db sid h true).exemptions := by
    rcases hex with ⟨heq, hm⟩ | heq
    · rw [heq]; exact hm
    · rw [heq]; exact List.mem_append_right _ (by simp)
  refine ⟨himg, ?_, ?_, ?_⟩
  · intro s2 hs2
    unfold get_images_for_source
    rw [himg]
    apply List.map_congr_left
    intro i _
    rcases hex with ⟨heq, _⟩ | heq
    · rw [heq]
    · rw [heq, List.any_append]
      have : ((sid, h).1 == s2 && (sid, h).2 == i.image_hash) = false := by
        have : (sid == s2) = false := beq_eq_false_iff_ne.mpr (fun he => hs2 he.symm)
        simp [this]
      simp [this]
  · intro p hp hph
    unfold get_images_for_source at hp
    rcases List.mem_map.mp hp with ⟨i, _, hieq⟩
    have hp2 : p.2 = (set_image_exemption db sid h true).exemptions.any
        (fun e => e.1 == sid && e.2 == i.image_hash) := by rw [← hieq]
    have hp1 : p.1 = i := by rw [← hieq]
    rw [hp2]
    apply List.any_eq_true.mpr
    refine ⟨(sid, h), hmemnew, ?_⟩
    rw [hp1] at hph
    simp [hph]
  · intro page per_page sf i hi hih
    simp only [get_images_from_pool] at hi
    have hsorted := List.drop_subset _ _ (List.take_subset _ _ hi)
    have hbase := (List.perm_insertionSort byAddedDesc _).subset hsorted
    have hfilt := List.mem_filter.mp hbase
    have hnoex := (Bool.and_eq_true_iff.mp hfilt.2).1
    have hany : ((set_image_exemption db sid h true).exemptions.any
        (fun e => e.2 == i.image_hash)) = true := by
      apply List.any_eq_true.mpr
      exact ⟨(sid, h), hmemnew, by simp [hih]⟩
    rw [hany] at hnoex
    simp at hnoex

/-- `C8` witness: the exemption of `(s1, h1)` leaves the listing of a
different source `s2` unchanged. -/
theorem exemption_amended_witness :
    get_images_for_source
        (set_image_exemption
          ⟨[⟨"h1", some "a.jpg", some "s1", "p", 800, 600, "unprocessed", 5⟩], []⟩
          "s1" "h1" true) "s2" =
      get_images_for_source
        ⟨[⟨"h1", some "a.jpg", some "s1", "p", 800, 600, "unprocessed", 5⟩], []⟩
        "s2" :=
  (exemption_amended
    ⟨[⟨"h1", some "a.jpg", some "s1", "p", 800, 600, "unprocessed", 5⟩], []⟩
    "s1" "h1").2.1 "s2" (by decide)

/-! ## Mask layer attribute updates (`app/backend/db_manager.py`)

One row per `Mask_Layers` record, with every column of the schema
(`init_project_db` lines 142-163 plus the `ensure_mask_layers_schema`
additions).  The schema has no visibility column; the callers that pass
`visible`/`mask_data_rle`/`status` keyword arguments to
`db_manager.update_mask_layer_basic` (`project_logic.update_mask_layer_basic`,
`update_image_state`) raise `TypeError` before any write happens, so the
two functions below are the only attribute writers that ever execute.
-/

structure MaskLayerRow where
  layer_id : String
  image_hash_ref : String
  layer_type : String
  created_at : Nat
  model_details : Option String
  prompt_details : Option String
  mask_data_rle : String
  metadata : Option String
  is_selected_for_final : Bool
  name : Option String
  class_label : Option String
  status : Option String
  display_color : Option String
  source_metadata : Option String
  updated_at : Option Nat
deriving DecidableEq, Repr

/-- `db_manager.update_mask_layer_basic` (lines 752-783): collect `SET`
clauses for exactly the provided fields among name / class_label /
display_color; with none provided, return without touching the database;
otherwise also set `updated_at` and apply `WHERE layer_id = ?`. -/
def update_mask_layer_basic (layers : List MaskLayerRow) (lid : String)
    (name class_label display_color : Option String) (now : Nat) :
    List MaskLayerRow :=
  if name = none ∧ class_label = none ∧ display_color = none then layers
  else
    layers.map (fun r =>
      if r.layer_id == lid then
        { r with
          name := name.orElse (fun _ => r.name),
          class_label := class_label.orElse (fun _ => r.class_label),
          display_color := display_color.orElse (fun _ => r.display_color),
          updated_at := some now }
      else r)

/-- `db_manager.update_mask_layer_status` (lines 786-801): set `layer_type`,
`status` and `updated_at` on the row with the given id. -/
def update_mask_layer_status (layers : List MaskLayerRow) (lid : String)
    (status : String) (now : Nat) : List MaskLayerRow :=
  layers.map (fun r =>
    if r.layer_id == lid then
      { r with layer_type := status, status := some status, updated_at := some now }
    else r)

/-- `C9`: attribute updates never touch the mask payload.  Listing every
column other than the updated attribute fields and the `updated_at`
bookkeeping timestamp: `update_mask_layer_basic` preserves `mask_data_rle`
together with identity, provenance and status columns on every row, and
`update_mask_layer_status` preserves `mask_data_rle` together with
identity, provenance and name/label/color columns on every row. -/
theorem update_layer_preserves_payload (layers : List MaskLayerRow)
    (lid : String) (name class_label display_color : Option String)
    (st : String) (now now2 : Nat) :
    ((update_mask_layer_basic layers lid name class_label display_color now).map
        (fun r => (r.layer_id, r.image_hash_ref, r.mask_data_rle, r.created_at,
          r.layer_type, r.model_details, r.prompt_details, r.metadata,
          r.is_selected_for_final, r.source_metadata, r.status)) =
      layers.map
        (fun r => (r.layer_id, r.image_hash_ref, r.mask_data_rle, r.created_at,
          r.layer_type, r.model_details, r.prompt_details, r.metadata,
          r.is_selected_for_final, r.source_metadata, r.status))) ∧
      ((update_mask_layer_status layers lid st now2).map
          (fun r => (r.layer_id, r.image_hash_ref, r.mask_data_rle, r.created_at,
            r.model_details, r.prompt_details, r.metadata,
            r.is_selected_for_final, r.source_metadata, r.name, r.class_label,
            r.display_color)) =
        layers.map
          (fun r => (r.layer_id, r.image_hash_ref, r.mask_data_rle, r.created_at,
            r.model_details, r.prompt_details, r.metadata,
            r.is_selected_for_final, r.source_metadata, r.name, r.class_label,
            r.display_color))) := by
  constructor
  · unfold update_mask_layer_basic
    split
    · rfl
    · rw [List.map_map]
      apply List.map_congr_left
      intro r _
      simp only [Function.comp_apply]
      split <;> rfl
  · unfold update_mask_layer_status
    rw [List.map_map]
    apply List.map_congr_left
    intro r _
    simp only [Function.comp_apply]
    split <;> rfl

/-! ## COCO export pipeline (`app/backend/export_logic.py`)

`prepare_export_data` (coco_rle_json branch, `layer_ids` empty) is embedded
over a snapshot of the `Images` and `Mask_Layers` tables.  A stored layer
carries its parsed `class_label` list (the code JSON-decodes the column or
wraps a bare string in a singleton list; absent labels give `[]`).

Python's `sorted` on strings is lexicographic by code point; it is embedded
as insertion sort over `strLeP` below, which compares the code-point lists
(the built-in `String` order does not reduce in the kernel).  The
`supercategory` field `label.split("_")[0]` is the prefix of the label
before the first underscore (code point 95), embedded with `takeWhile`.
Geometry (`bbox`, `area`) is computed by the external `pycocotools`
library and is not modelled; annotation records keep the RLE payload.
-/

/-- Code-point lexicographic comparison of character lists — the order
`sorted` uses on Python strings. -/
def charListLe : List Char → List Char → Bool
  | [], _ => true
  | _ :: _, [] => false
  | a :: as, b :: bs =>
      if a.toNat < b.toNat then true
      else if b.toNat < a.toNat then false
      else charListLe as bs

def strLe (a b : String) : Bool := charListLe a.data b.data

def strLeP (a b : String) : Prop := strLe a b = true

instance : DecidableRel strLeP := fun a b => Bool.decEq (strLe a b) true

theorem charListLe_total : ∀ as bs : List Char,
    charListLe as bs = true ∨ charListLe bs as = true := by
  intro as
  induction as with
  | nil => intro bs; exact Or.inl rfl
  | cons a as ih =>
      intro bs
      cases bs with
      | nil => exact Or.inr rfl
      | cons b bs =>
          rcases Nat.lt_trichotomy a.toNat b.toNat with h | h | h
          · exact Or.inl (by rw [charListLe, if_pos h])
          · rw [charListLe, if_neg (by omega), if_neg (by omega),
              charListLe, if_neg (by omega), if_neg (by omega)]
            exact ih bs
          · exact Or.inr (by rw [charListLe, if_pos h])

theorem charListLe_trans : ∀ as bs cs : List Char,
    charListLe as bs = true → charListLe bs cs = true →
      charListLe as cs = true := by
  intro as
  induction as with
  | nil => intro bs cs _ _; rfl
  | cons a as ih =>
      intro bs cs hab hbc
      cases bs with
      | nil => exact absurd hab (by rw [charListLe]; simp)
      | cons b bs =>
          cases cs with
          | nil => exact absurd hbc (by rw [charListLe]; simp)
          | cons c cs =>
              rw [charListLe] at hab hbc ⊢
              by_cases h1 : a.toNat < b.toNat
              · by_cases h2 : b.toNat < c.toNat
                · rw [if_pos (by omega)]
                · rw [if_neg h2] at hbc
                  by_cases h3 : c.toNat < b.toNat
                  · rw [if_pos h3] at hbc; exact absurd hbc (by simp)
                  · rw [if_pos (by omega)]
              · rw [if_neg h1] at hab
                by_cases h1' : b.toNat < a.toNat
                · rw [if_pos h1'] at hab; exact absurd hab (by simp)
                · rw [if_neg h1'] at hab
                  by_cases h2 : b.toNat < c.toNat
                  · rw [if_pos (by omega)]
                  · rw [if_neg h2] at hbc
                    by_cases h3 : c.toNat < b.toNat
                    · rw [if_pos h3] at hbc; exact absurd hbc (by simp)
                    · rw [if_neg h3] at hbc
                      rw [if_neg (by omega), if_neg (by omega)]
                      exact ih bs cs hab hbc

instance : IsTotal String strLeP := ⟨fun a b => charListLe_total a.data b.data⟩

instance : IsTrans String strLeP :=
  ⟨fun a b c hab hbc => charListLe_trans a.data b.data c.data hab hbc⟩

/-- `label.split("_")[0]`: the prefix of the label before the first
underscore. -/
def superOf (s : String) : String :=
  String.mk (s.data.takeWhile (fun c => c.toNat != 95))

structure StoredLayer where
  layer_id : String
  image_hash_ref : String
  status : String
  class_labels : List String
  visible : Bool
  mask_data_rle : String
deriving DecidableEq, Repr

structure ExpImage where
  image_hash : String
  width : Nat
  height : Nat
  original_filename : Option String
  status : String
deriving DecidableEq, Repr

structure ExportDB where
  images : List ExpImage
  layers : List StoredLayer
deriving DecidableEq, Repr

/-- The export filters of `prepare_export_data` (the `layer_ids` allow-list
path calls `db_manager.get_layers_by_ids`, which does not exist in the db
layer, so only the empty-`layer_ids` path is reachable and embedded);
`visibility_mode` is a string, anything other than `"and"`/`"or"` meaning
`none`. -/
structure ExportFilters where
  image_statuses : List String
  layer_statuses : List String
  class_labels : List String
  image_hashes : List String
  visibility_mode : String
deriving DecidableEq, Repr

/-- `db_manager.get_image_hashes_by_statuses` (lines 577-588). -/
def get_image_hashes_by_statuses (db : ExportDB) (statuses : List String) :
    List String :=
  if statuses = [] then []
  else (db.images.filter (fun i => statuses.contains i.status)).map
    (fun i => i.image_hash)

/-- Modelled from the spec: the visibility-aware layer fetch that
`prepare_export_data` and `calculate_export_stats` call as
`db_manager.get_layers_by_image_and_statuses(project_id, image_hashes,
layer_statuses, visible_filter)`.  That four-argument function (and the
`visible` column it reads) is missing from the db layer in `src`, which
holds an older three-argument version over a schema without visibility;
the spec (§4.5, §9) describes the visibility-aware variant: return the
layers of the selected images, filtered by layer status when a layer-status
allow-list is given, and by the visibility flag when a visibility filter is
given. -/
def get_layers_by_image_and_statuses_v (db : ExportDB)
    (image_hashes layer_statuses : List String) (visible_filter : Option Bool) :
    List StoredLayer :=
  if image_hashes = [] then []
  else db.layers.filter (fun l =>
    image_hashes.contains l.image_hash_ref &&
      (layer_statuses.isEmpty || layer_statuses.contains l.status) &&
      (match visible_filter with
       | none => true
       | some b => l.visible == b))

/-- The per-layer include predicate of `prepare_export_data`
(lines 291-312): mode `and` needs visibility and (no label filter or a
label intersection); mode `or` needs visibility or a label intersection;
any other mode applies only the label filter. -/
def layerIncluded (visibility_mode : String) (class_labels : List String)
    (l : StoredLayer) : Bool :=
  if visibility_mode = "and" then
    l.visible &&
      (class_labels.isEmpty || l.class_labels.any (fun t => class_labels.contains t))
  else if visibility_mode = "or" then
    l.visible ||
      (!class_labels.isEmpty && l.class_labels.any (fun t => class_labels.contains t))
  else
    class_labels.isEmpty || l.class_labels.any (fun t => class_labels.contains t)

/-- The image-hash set used for the fetch: the explicit allow-list, extended
(when an image-status allow-list is given) with the status-derived hashes
not already present (lines 276-285). -/
def candidateHashes (db : ExportDB) (f : ExportFilters) : List String :=
  f.image_hashes ++
    (if f.image_statuses.isEmpty then []
     else (get_image_hashes_by_statuses db f.image_statuses).filter
       (fun h => !f.image_hashes.contains h))

/-- The fetched candidate layers (lines 286-289): the `and` visibility mode
passes `visible_filter = True` to the fetch. -/
def candidateLayers (db : ExportDB) (f : ExportFilters) : List StoredLayer :=
  get_layers_by_image_and_statuses_v db (candidateHashes db f) f.layer_statuses
    (if f.visibility_mode = "and" then some true else none)

/-- The surviving layers after the in-function visibility/label filter. -/
def includedLayers (db : ExportDB) (f : ExportFilters) : List StoredLayer :=
  (candidateLayers db f).filter (layerIncluded f.visibility_mode f.class_labels)

/-- `sorted(tag_set)` over the labels observed on the surviving layers
(lines 329-338). -/
def sortedLabels (layers : List StoredLayer) : List String :=
  List.insertionSort strLeP ((layers.flatMap (fun l => l.class_labels)).dedup)

structure CocoCategory where
  id : Nat
  name : String
  supercategory : String
deriving DecidableEq, Repr

/-- The category records (lines 339-355): the sorted distinct labels get
ids 1..n in order, then an `unlabeled` category with id n+1 is appended;
with no labels at all the single category is `unlabeled` with id 1. -/
def categoriesForLabels (unique_labels : List String) : List CocoCategory :=
  if unique_labels.isEmpty then [⟨1, "unlabeled", "none"⟩]
  else
    (unique_labels.enum.map (fun p => ⟨p.1 + 1, p.2, superOf p.2⟩)) ++
      [⟨unique_labels.length + 1, "unlabeled", "none"⟩]

/-- `category_map.get(tag, default_cat)`: position of the tag in the sorted
label list plus one, or the `unlabeled` id. -/
def categoryIdFor (unique_labels : List String) (tag : String) : Nat :=
  match unique_labels.indexOf? tag with
  | some i => i + 1
  | none => unique_labels.length + 1

/-- Category id for a layer tag; `none` stands for Python's `None` entry in
`layer_tags or [None]` and maps to the `unlabeled` id. -/
def annCategoryId (unique_labels : List String) (tag : Option String) : Nat :=
  match tag with
  | none => unique_labels.length + 1
  | some t => categoryIdFor unique_labels t

/-- `sorted({layer["image_hash_ref"] for layer in all_layers})`
(line 322). -/
def survivingHashes (layers : List StoredLayer) : List String :=
  List.insertionSort strLeP ((layers.map (fun l => l.image_hash_ref)).dedup)

/-- The image records (lines 357-371): enumerate the surviving hashes,
skipping hashes with no `Images` row; the id is the enumeration index + 1
(ids are not re-compacted after a skip). -/
def cocoImages (db : ExportDB) (hashes : List String) : List (Nat × ExpImage) :=
  hashes.enum.filterMap (fun p =>
    match db.images.find? (fun i => i.image_hash == p.2) with
    | some info => some (p.1 + 1, info)
    | none => none)

/-- `image_id_map` lookup: index of the hash among the surviving hashes
plus one, provided its `Images` row exists. -/
def imageIdFor (db : ExportDB) (hashes : List String) (h : String) : Option Nat :=
  match hashes.indexOf? h with
  | some i =>
      if db.images.any (fun i2 => i2.image_hash == h) then some (i + 1) else none
  | none => none

structure CocoAnnotation where
  id : Nat
  image_id : Nat
  category_id : Nat
  segmentation : String
deriving DecidableEq, Repr

/-- The annotation records (lines 373-402): one record per (layer, tag)
pair — an unlabeled layer contributes a single record under the
`unlabeled` category (`for tag in layer_tags or [None]`); annotation ids
count up from 1; layers whose image id is unknown are skipped. -/
def annotationsFor (db : ExportDB) (hashes unique_labels : List String)
    (layers : List StoredLayer) : List CocoAnnotation :=
  (layers.foldl
    (fun (acc : List CocoAnnotation × Nat) l =>
      match imageIdFor db hashes l.image_hash_ref with
      | none => acc
      | some img_id =>
          (if l.class_labels.isEmpty then [(none : Option String)]
           else l.class_labels.map some).foldl
            (fun acc2 tag =>
              (acc2.1 ++ [⟨acc2.2, img_id, annCategoryId unique_labels tag,
                l.mask_data_rle⟩], acc2.2 + 1))
            acc)
    ([], 1)).1

structure CocoOut where
  images : List (Nat × ExpImage)
  annotations : List CocoAnnotation
  categories : List CocoCategory
deriving DecidableEq, Repr

/-- `_prepare_coco_structure`: the default document carries a single
`object` category; the early returns (no candidate hashes, or no surviving
layers) emit it unchanged. -/
def defaultCoco : CocoOut := ⟨[], [], [⟨1, "object", "object"⟩]⟩

/-- The `coco_rle_json` branch of `prepare_export_data` with empty
`layer_ids` (lines 251-407). -/
def prepare_export_data_coco (db : ExportDB) (f : ExportFilters) : CocoOut :=
  if (candidateHashes db f).isEmpty then defaultCoco
  else
    if (survivingHashes (includedLayers db f)).isEmpty then defaultCoco
    else
      ⟨cocoImages db (survivingHashes (includedLayers db f)),
        annotationsFor db (survivingHashes (includedLayers db f))
          (sortedLabels (includedLayers db f)) (includedLayers db f),
        categoriesForLabels (sortedLabels (includedLayers db f))⟩

/-- When layers survive the filter, neither early return fires and the
emitted categories are exactly `categoriesForLabels` of the sorted observed
labels. -/
theorem prepare_categories_eq (db : ExportDB) (f : ExportFilters)
    (hne : includedLayers db f ≠ []) :
    (prepare_export_data_coco db f).categories =
      categoriesForLabels (sortedLabels (includedLayers db f)) := by
  have hch : ¬ (candidateHashes db f).isEmpty = true := by
    intro h
    apply hne
    unfold includedLayers candidateLayers get_layers_by_image_and_statuses_v
    rw [List.isEmpty_iff.mp h]
    simp
  have hsh : ¬ (survivingHashes (includedLayers db f)).isEmpty = true := by
    intro h
    apply hne
    have h0 : survivingHashes (includedLayers db f) = [] := List.isEmpty_iff.mp h
    unfold survivingHashes at h0
    have hp := List.perm_insertionSort strLeP
      (((includedLayers db f).map (fun l => l.image_hash_ref)).dedup)
    rw [h0] at hp
    have h2 : (((includedLayers db f).map (fun l => l.image_hash_ref)).dedup) = [] :=
      hp.symm.eq_nil
    have h3 := (List.dedup_eq_nil _).mp h2
    exact List.map_eq_nil_iff.mp h3
  unfold prepare_export_data_coco
  rw [if_neg hch, if_neg hsh]

theorem categoriesForLabels_ids (labs : List String) :
    (categoriesForLabels labs).map (fun c => c.id) =
      List.range' 1 (categoriesForLabels labs).length := by
  unfold categoriesForLabels
  by_cases h : labs.isEmpty = true
  · rw [if_pos h]; rfl
  · rw [if_neg h]
    simp only [List.map_append, List.map_map, List.length_append,
      List.length_map, List.enum_length, List.length_singleton]
    have h1 : labs.enum.map ((fun c : CocoCategory => c.id) ∘
        (fun p : Nat × String => ⟨p.1 + 1, p.2, superOf p.2⟩)) =
        (labs.enum.map Prod.fst).map (fun i => i + 1) := by
      rw [List.map_map]
      rfl
    rw [h1, List.enum_map_fst, List.range'_concat]
    have h2 : (List.range labs.length).map (fun i => i + 1) =
        List.range' 1 labs.length := by
      rw [List.range'_eq_map_range]
      apply List.map_congr_left
      intro i _
      omega
    rw [h2]
    simp [Nat.add_comm]

theorem categoriesForLabels_names (labs : List String) :
    (categoriesForLabels labs).map (fun c => c.name) = labs ++ ["unlabeled"] := by
  unfold categoriesForLabels
  by_cases h : labs.isEmpty = true
  · rw [if_pos h, List.isEmpty_iff.mp h]; rfl
  · rw [if_neg h]
    simp only [List.map_append, List.map_map]
    congr 1
    have h1 : labs.enum.map ((fun c : CocoCategory => c.name) ∘
        (fun p : Nat × String => ⟨p.1 + 1, p.2, superOf p.2⟩)) =
        labs.enum.map Prod.snd := by
      apply List.map_congr_left
      intro p _
      rfl
    rw [h1, List.enum_map_snd]

/-- `C5` counterexample: one surviving layer labeled `["cat"]` — every
annotation carries the `cat` category, none lacks a label, yet the
`unlabeled` category (id 2) is still appended: the code appends it
unconditionally whenever any label exists (lines 347-351), not "only if at
least one surviving annotation lacks a label". -/
theorem export_unlabeled_category_counterexample :
    ((prepare_export_data_coco
        ⟨[⟨"H", 10, 10, some "h.jpg", "in_progress"⟩],
         [⟨"L1", "H", "edited", ["cat"], true, "rle1"⟩]⟩
        ⟨[], [], [], ["H"], "none"⟩).categories.map (fun c => (c.id, c.name)) =
      [(1, "cat"), (2, "unlabeled")]) ∧
      (∀ a ∈ (prepare_export_data_coco
          ⟨[⟨"H", 10, 10, some "h.jpg", "in_progress"⟩],
           [⟨"L1", "H", "edited", ["cat"], true, "rle1"⟩]⟩
          ⟨[], [], [], ["H"], "none"⟩).annotations, a.category_id = 1) ∧
      (∀ l ∈ includedLayers
          ⟨[⟨"H", 10, 10, some "h.jpg", "in_progress"⟩],
           [⟨"L1", "H", "edited", ["cat"], true, "rle1"⟩]⟩
          ⟨[], [], [], ["H"], "none"⟩, l.class_labels ≠ []) := by
  decide

/-- `C5` amended: whenever layers survive the filters, the category list is
the lexicographically sorted distinct labels of the surviving layers
numbered from 1, with an `unlabeled` category always appended last; the
numbering is a pure function of that sorted label list, so identical
filters on unchanged data give identical category ids. -/
theorem export_categories_amended (db : ExportDB) (f : ExportFilters)
    (hne : includedLayers db f ≠ []) :
    List.Sorted strLeP (sortedLabels (includedLayers db f)) ∧
      (sortedLabels (includedLayers db f)).Nodup ∧
      (∀ s, s ∈ sortedLabels (includedLayers db f) ↔
        ∃ l ∈ includedLayers db f, s ∈ l.class_labels) ∧
      (prepare_export_data_coco db f).categories =
        categoriesForLabels (sortedLabels (includedLayers db f)) ∧
      ((prepare_export_data_coco db f).categories.map (fun c => c.id) =
        List.range' 1 (prepare_export_data_coco db f).categories.length) ∧
      ((prepare_export_data_coco db f).categories.map (fun c => c.name) =
        sortedLabels (includedLayers db f) ++ ["unlabeled"]) ∧
      ∀ (db2 : ExportDB) (f2 : ExportFilters), includedLayers db2 f2 ≠ [] →
        sortedLabels (includedLayers db2 f2) = sortedLabels (includedLayers db f) →
        (prepare_export_data_coco db2 f2).categories =
          (prepare_export_data_coco db f).categories := by
  refine ⟨List.sorted_insertionSort strLeP _,
    (List.perm_insertionSort strLeP _).nodup_iff.mpr (List.nodup_dedup _),
    ?_, prepare_categories_eq db f hne, ?_, ?_, ?_⟩
  · intro s
    unfold sortedLabels
    rw [(List.perm_insertionSort strLeP _).mem_iff, List.mem_dedup,
      List.mem_flatMap]
  · rw [prepare_categories_eq db f hne]
    exact categoriesForLabels_ids _
  · rw [prepare_categories_eq db f hne]
    exact categoriesForLabels_names _
  · intro db2 f2 h2ne h2eq
    rw [prepare_categories_eq db2 f2 h2ne, prepare_categories_eq db f hne, h2eq]

/-- `C5` witness: the concrete one-layer export's category names are the
sorted observed labels plus the trailing `unlabeled`. -/
theorem export_categories_amended_witness :
    (prepare_export_data_coco
        ⟨[⟨"H", 10, 10, some "h.jpg", "in_progress"⟩],
         [⟨"L1", "H", "edited", ["cat"], true, "rle1"⟩]⟩
        ⟨[], [], [], ["H"], "none"⟩).categories.map (fun c => c.name) =
      sortedLabels (includedLayers
        ⟨[⟨"H", 10, 10, some "h.jpg", "in_progress"⟩],
         [⟨"L1", "H", "edited", ["cat"], true, "rle1"⟩]⟩
        ⟨[], [], [], ["H"], "none"⟩) ++ ["unlabeled"] :=
  (export_categories_amended
    ⟨[⟨"H", 10, 10, some "h.jpg", "in_progress"⟩],
     [⟨"L1", "H", "edited", ["cat"], true, "rle1"⟩]⟩
    ⟨[], [], [], ["H"], "none"⟩ (by decide)).2.2.2.2.2.1

/-- The `C6` scenario database: image `H` with layer `L1` labeled
`["cat"]` and visible, and layer `L2` unlabeled and hidden. -/
def scenarioDB : ExportDB :=
  ⟨[⟨"H", 10, 10, some "h.jpg", "in_progress"⟩],
   [⟨"L1", "H", "edited", ["cat"], true, "rle1"⟩,
    ⟨"L2", "H", "edited", [], false, "rle2"⟩]⟩

/-- `C6`: in `and` mode a layer is included exactly when fetched, visible,
and (no label filter or a label intersection); the scenario export with
`visibility_mode="and"`, `class_labels=["cat"]` yields exactly one
annotation, from `L1` under category 1 = `cat`; with
`visibility_mode="none"` it yields two annotations, `L1` under `cat` and
`L2` under `unlabeled` (id 2). -/
theorem export_visibility_and_scenario :
    (∀ (db : ExportDB) (f : ExportFilters), f.visibility_mode = "and" →
      ∀ l, l ∈ includedLayers db f ↔
        l ∈ candidateLayers db f ∧ l.visible = true ∧
          (f.class_labels = [] ∨ ∃ t ∈ l.class_labels, t ∈ f.class_labels)) ∧
      ((prepare_export_data_coco scenarioDB ⟨[], [], ["cat"], ["H"], "and"⟩).annotations =
          [⟨1, 1, 1, "rle1"⟩] ∧
        ⟨1, "cat", "cat"⟩ ∈ (prepare_export_data_coco scenarioDB
          ⟨[], [], ["cat"], ["H"], "and"⟩).categories) ∧
      ((prepare_export_data_coco scenarioDB ⟨[], [], [], ["H"], "none"⟩).annotations =
          [⟨1, 1, 1, "rle1"⟩, ⟨2, 1, 2, "rle2"⟩] ∧
        (prepare_export_data_coco scenarioDB ⟨[], [], [], ["H"], "none"⟩).categories =
          [⟨1, "cat", "cat"⟩, ⟨2, "unlabeled", "none"⟩]) := by
  refine ⟨?_, by decide, by decide⟩
  intro db f hmode l
  unfold includedLayers
  rw [List.mem_filter]
  unfold layerIncluded
  rw [if_pos hmode]
  constructor
  · rintro ⟨hc, hp⟩
    rcases Bool.and_eq_true_iff.mp hp with ⟨hv, hrest⟩
    refine ⟨hc, hv, ?_⟩
    rcases Bool.or_eq_true_iff.mp hrest with he | hany
    · exact Or.inl (List.isEmpty_iff.mp he)
    · right
      rcases List.any_eq_true.mp hany with ⟨t, ht, htc⟩
      exact ⟨t, ht, by simpa using htc⟩
  · rintro ⟨hc, hv, hlab⟩
    refine ⟨hc, Bool.and_eq_true_iff.mpr ⟨hv, ?_⟩⟩
    apply Bool.or_eq_true_iff.mpr
    rcases hlab with he | ⟨t, ht, htc⟩
    · exact Or.inl (by rw [he]; rfl)
    · exact Or.inr (List.any_eq_true.mpr ⟨t, ht, by simpa using htc⟩)

/-- `C6` witness: `L1` satisfies the `and`-mode inclusion condition in the
scenario export. -/
theorem export_visibility_and_scenario_witness :
    (⟨"L1", "H", "edited", ["cat"], true, "rle1"⟩ : StoredLayer) ∈
      includedLayers scenarioDB ⟨[], [], ["cat"], ["H"], "and"⟩ :=
  (export_visibility_and_scenario.1 scenarioDB ⟨[], [], ["cat"], ["H"], "and"⟩ rfl
      ⟨"L1", "H", "edited", ["cat"], true, "rle1"⟩).mpr
    ⟨by decide, rfl, Or.inr ⟨"cat", by decide, by decide⟩⟩

end SamBatcher
